import Mathlib

set_option maxRecDepth 10000

/-!
Shallow embedding of the JSON logging core of the glog package
(src/unnamed/part_000: the `Json` record builder, the call-site activity
check `json`, the header builder `jheader`, the escaping routine
`Json.string`, and the severity-routed sink `outputj`).

Go byte slices holding text are modelled as `List Char` (the source is
only ever fed valid UTF-8 here; the `utf8.RuneError`-repair branch of
`Json.string` is therefore unreachable in the model and noted where it
occurs).  Machine integers (`int`, `int64`, `Level = int32`) are modelled
as `Int`; none of the embedded code paths overflow-wrap.  Process-wide
mutable globals (`JVersion`, `JFieldPrefix`, `JEscapeHTML`, the `logging`
state) become explicit parameters.
-/

/-- Severity constants, in the order fixed by `lowerSeverityName`
(`infoLog < warningLog < errorLog < fatalLog`). -/
def infoLog : Nat := 0

def warningLog : Nat := 1

def errorLog : Nat := 2

def fatalLog : Nat := 3

/-- The `Level` verbosity type (`int32` in Go). -/
abbrev Level := Int

/-- The package-level JSON configuration globals. -/
structure JConfig where
  JVersion : List Char
  JFieldPrefix : List Char
  JEscapeHTML : Bool

/-- The `Json` record handle: `p` is the byte buffer under construction
(the fixed `buf [1024]byte` prefix and the slice `p` are merged into one
list), `s`/`file`/`line` are the struct fields read back by `Msg`.
NOTE (faithful to the source): `jheader` never assigns `s`, `file` or
`line`, so they keep whatever the pooled handle held. -/
structure Json where
  p : List Char
  s : Nat
  file : List Char
  line : Int
deriving DecidableEq

/-- digits of the shared `const digits = "0123456789"` table. -/
def digitChar (d : Nat) : Char := Char.ofNat (48 + d % 10)

/-- Json.twoDigits: writes `digits[(d/10)%10]` then `digits[d%10]`. -/
def twoDigitChars (d : Nat) : List Char := [digitChar (d / 10), digitChar d]

/-- The four year digits of `jheader` (successive `%10` / `/10` steps). -/
def fourDigitChars (d : Nat) : List Char :=
  [digitChar (d / 1000), digitChar (d / 100), digitChar (d / 10), digitChar d]

/-- Decimal digits as written by the `for d != 0` loops of
`Json.timestamp`: nothing at all for `0`. -/
def natDigitCharsAux : Nat → Nat → List Char
  | 0, _ => []
  | fuel + 1, n => if n = 0 then [] else natDigitCharsAux fuel (n / 10) ++ [digitChar n]

def natDigitChars (n : Nat) : List Char := natDigitCharsAux (n + 1) n

/-- The six zero-padded microsecond digits of `Json.timestamp`
(`d := now.Nanosecond()/1000`, so `d < 1000000` always holds there). -/
def microChars (micro : Nat) : List Char :=
  List.replicate (6 - (natDigitChars micro).length) '0' ++ natDigitChars micro

/-- The 17-byte region `buf[48:65]` filled by `Json.timestamp`: the Unix
seconds, a dot, six microsecond digits.  The region is exactly filled when
the Unix time has ten digits (true for the program's whole era); a shorter
time would leave stale pooled bytes at the front, which the model omits. -/
def timestampChars (unix micro : Nat) : List Char :=
  natDigitChars unix ++ '.' :: microChars micro

/-- The timezone part of `jheader`: `+` and `offset/60` when `offset > 0`,
else `-` and `(-offset)/60`, split as two two-digit groups around `:`. -/
def offsetChars (offset : Int) : List Char :=
  if 0 < offset then
    let o := (offset / 60).toNat
    '+' :: twoDigitChars (o / 60) ++ ':' :: twoDigitChars (o % 60)
  else
    let o := ((-offset) / 60).toNat
    '-' :: twoDigitChars (o / 60) ++ ':' :: twoDigitChars (o % 60)

/-- safeSet table of the source, characterised: every ASCII byte from
0x20 up is true except the double quote and the backslash (control bytes
0x00–0x1f are false).  Only consulted for code points below 0x80. -/
def safeSet (c : Char) : Bool :=
  decide (0x20 ≤ c.toNat) && !(c = '"') && !(c = '\\')

/-- htmlSafeSet table of the source: safeSet minus `<`, `>` and `&`. -/
def htmlSafeSet (c : Char) : Bool :=
  safeSet c && !(c = '<') && !(c = '>') && !(c = '&')

/-- hex digit table `var hex = "0123456789abcdef"`. -/
def hexChar (n : Nat) : Char :=
  if n < 10 then Char.ofNat (48 + n) else Char.ofNat (87 + n)

/-- The bytes `Json.string` emits for one input character (the source
batches runs of safe characters via `start`/`i` slicing; that is
semantically per-character concatenation, which is how it is written
here).  The `utf8.RuneError`-with-size-1 branch repairs invalid UTF-8
byte sequences and cannot fire on the `List Char` model. -/
def jchunk (escapeHTML : Bool) (c : Char) : List Char :=
  if c.toNat < 0x80 then
    if htmlSafeSet c || (!escapeHTML && safeSet c) then [c]
    else if c = '\\' || c = '"' then ['\\', c]
    else if c = '\n' then ['\\', 'n']
    else if c = '\r' then ['\\', 'r']
    else if c = '\t' then ['\\', 't']
    else ['\\', 'u', '0', '0', hexChar (c.toNat / 16), hexChar (c.toNat % 16)]
  else if c = '\u2028' || c = '\u2029' then
    ['\\', 'u', '2', '0', '2', hexChar (c.toNat % 16)]
  else [c]

/-- The body `Json.string` appends between the two quotes. -/
def jstringBody (escapeHTML : Bool) : List Char → List Char
  | [] => []
  | c :: s => jchunk escapeHTML c ++ jstringBody escapeHTML s

/-- Json.string: an opening quote, the escaped body, a closing quote. -/
def jstring (escapeHTML : Bool) (s : List Char) : List Char :=
  '"' :: jstringBody escapeHTML s ++ ['"']

/-- lowerSeverityName table. -/
def lowerSeverityName (s : Nat) : List Char :=
  if s = infoLog then "info".toList
  else if s = warningLog then "warning".toList
  else if s = errorLog then "error".toList
  else if s = fatalLog then "fatal".toList
  else []

/-- strconv.AppendInt in base 10. -/
def intChars (i : Int) : List Char := (toString i).toList

/-- strconv.AppendUint in base 10. -/
def natChars (n : Nat) : List Char := (toString n).toList

/-- The wall-clock fields `jheader` reads off `timeNow()`. -/
structure TimeParts where
  year : Nat
  month : Nat
  day : Nat
  hour : Nat
  minute : Nat
  second : Nat
  offset : Int
  unix : Nat
  micro : Nat

/-- The buffer contents `jheader` leaves in `j.p`: the fixed 65-byte
prefix `buf[0:65]` (brace, `time`, `timestamp`) followed by the appended
`level`/`version`/`host`/`pid`/`file`/`line` fields. -/
def jheaderChars (cfg : JConfig) (now : TimeParts) (host : List Char) (pid : Int)
    (s : Nat) (file : List Char) (line : Int) : List Char :=
  '{' :: "\"time\":\"".toList
    ++ fourDigitChars now.year ++ '-' :: twoDigitChars now.month
    ++ '-' :: twoDigitChars now.day ++ 'T' :: twoDigitChars now.hour
    ++ ':' :: twoDigitChars now.minute ++ ':' :: twoDigitChars now.second
    ++ offsetChars now.offset
    ++ "\",\"timestamp\":".toList ++ timestampChars now.unix now.micro
    ++ ",\"level\":\"".toList ++ lowerSeverityName s
    ++ (if cfg.JVersion ≠ [] then "\",\"version\":\"".toList ++ cfg.JVersion else [])
    ++ "\",\"host\":\"".toList ++ host
    ++ "\",\"pid\":".toList ++ intChars pid
    ++ ",\"file\":\"".toList ++ file
    ++ "\",\"line\":".toList ++ intChars line

/-- jheader: takes a handle from `jbufpool` (parameter `pool`), fills the
buffer and returns the handle.  The `level` parameter of the source is
accepted and, exactly as in the source, never used; `s`, `file` and
`line` are never stored back into the struct. -/
def jheader (cfg : JConfig) (now : TimeParts) (host : List Char) (pid : Int)
    (pool : Json) (s : Nat) (_level : Level) (file : List Char) (line : Int) : Json :=
  { pool with p := jheaderChars cfg now host pid s file line }

/-- The suffix of `file` after its last `/` (strings.LastIndex in `json`);
the whole name when it holds no slash. -/
def afterLastSlash : List Char → List Char
  | [] => []
  | c :: r => if '/' ∈ r then afterLastSlash r else if c = '/' then r else c :: r

/-- The pieces of mutable `logging` state and runtime-call results that
the `json` constructor reads: the global verbosity, the vmodule filter
count, the `runtime.Caller(2)` result, the `runtime.Callers(2, pcs)`
count, the cached `vmap` entry for the call site, and the value `setV`
would resolve for it on a cache miss. -/
structure JsonEnv where
  verbosity : Level
  filterLength : Nat
  callerOk : Bool
  callerFile : List Char
  callerLine : Int
  callersN : Nat
  vmapEntry : Option Level
  setVResult : Level

/-- json: the severity/verbosity gate.  Returns a filled header handle
when the site is active, `none` (the Go nil handle) otherwise. -/
def json (cfg : JConfig) (now : TimeParts) (host : List Char) (pid : Int)
    (pool : Json) (env : JsonEnv) (s : Nat) (level : Level) : Option Json :=
  let file := if !env.callerOk then "???".toList else afterLastSlash env.callerFile
  let line := if env.callerLine < 0 then 0 else env.callerLine
  if level ≤ env.verbosity then
    some (jheader cfg now host pid pool s level file line)
  else if 0 < env.filterLength then
    if env.callersN = 0 then none
    else
      let v := env.vmapEntry.getD env.setVResult
      if level ≤ v then some (jheader cfg now host pid pool s level file line)
      else none
  else none

namespace Json

/-- Int64 field builder (also the target of Int/Int8/Int16/Int32). -/
def Int64 (cfg : JConfig) (j : Option Json) (name : List Char) (i : Int) : Option Json :=
  match j with
  | none => none
  | some j =>
    some { j with p := j.p ++ ',' :: '"' ::
      (if cfg.JFieldPrefix ≠ [] then cfg.JFieldPrefix else [])
      ++ name ++ '"' :: ':' :: intChars i }

/-- Uint64 field builder (also the target of Uint/Uint8/Uint16/Uint32). -/
def Uint64 (cfg : JConfig) (j : Option Json) (name : List Char) (i : Nat) : Option Json :=
  match j with
  | none => none
  | some j =>
    some { j with p := j.p ++ ',' :: '"' ::
      (if cfg.JFieldPrefix ≠ [] then cfg.JFieldPrefix else [])
      ++ name ++ '"' :: ':' :: natChars i }

/-- Float64 field builder.  strconv.AppendFloat is an external stdlib
formatter over IEEE doubles; its output for the argument is abstracted as
the pre-rendered character list `fchars`. -/
def Float64 (cfg : JConfig) (j : Option Json) (name : List Char) (fchars : List Char) :
    Option Json :=
  match j with
  | none => none
  | some j =>
    some { j with p := j.p ++ ',' :: '"' ::
      (if cfg.JFieldPrefix ≠ [] then cfg.JFieldPrefix else [])
      ++ name ++ '"' :: ':' :: fchars }

/-- Err field builder: fixed `"error"` key, never prefixed. -/
def Err (cfg : JConfig) (j : Option Json) (errText : List Char) : Option Json :=
  match j with
  | none => none
  | some j =>
    some { j with p := j.p ++ ",\"error\":".toList ++ jstring cfg.JEscapeHTML errText }

/-- Str field builder. -/
def Str (cfg : JConfig) (j : Option Json) (name : List Char) (s : List Char) : Option Json :=
  match j with
  | none => none
  | some j =>
    some { j with p := j.p ++ ',' :: '"' ::
      (if cfg.JFieldPrefix ≠ [] then cfg.JFieldPrefix else [])
      ++ name ++ '"' :: ':' :: jstring cfg.JEscapeHTML s }

/-- Strs field builder, exactly as written in the source: no comma in
front of the key (unlike every other builder) and a trailing comma after
the closing bracket; the elements are comma-separated. -/
def Strs (cfg : JConfig) (j : Option Json) (name : List Char) (ss : List (List Char)) :
    Option Json :=
  match j with
  | none => none
  | some j =>
    some { j with p := j.p ++ '"' ::
      (if cfg.JFieldPrefix ≠ [] then cfg.JFieldPrefix else [])
      ++ name ++ '"' :: ':' :: '[' ::
      List.intercalate [','] (ss.map (jstring cfg.JEscapeHTML)) ++ [']', ','] }

end Json

/-- Bool field builder (declared outside the namespace so that the name
of the `Bool` type stays unambiguous in the binder). -/
def Json.Bool (cfg : JConfig) (j : Option Json) (name : List Char) (b : Bool) : Option Json :=
  match j with
  | none => none
  | some j =>
    some { j with p := j.p ++ ',' :: '"' ::
      (if cfg.JFieldPrefix ≠ [] then cfg.JFieldPrefix else [])
      ++ name ++ (if b then ['"', ':', 't', 'r', 'u', 'e']
                  else ['"', ':', 'f', 'a', 'l', 's', 'e']) }

/-- The completed record bytes `Msg` leaves in `j.p`: the optional
terminal message field (skipped for the empty string), then the closing
brace and newline. -/
def msgClose (p : List Char) (s : List Char) : List Char :=
  (if s ≠ [] then p ++ ",\"message\":".toList ++ jstring false s else p) ++ ['}', '\n']

/-- The record as handed to `logging.outputj`. -/
structure SinkCall where
  s : Nat
  data : List Char
  file : List Char
  line : Int
deriving DecidableEq

/-- Msg: a no-op on the nil handle; otherwise closes the record and hands
it to the sink (returned here as the `SinkCall`). -/
def Json.Msg (j : Option Json) (s : List Char) : Option SinkCall :=
  match j with
  | none => none
  | some j => some ⟨j.s, msgClose j.p s, j.file, j.line⟩

/-- Msgf, exactly as written in the source: the body is guarded by
`if j == nil`, so a non-nil handle does nothing and a nil handle calls
`Msg` (itself a no-op on nil).  `fmt.Sprintf(format, v...)` is abstracted
as the pre-formatted character list. -/
def Json.Msgf (j : Option Json) (formatted : List Char) : Option SinkCall :=
  match j with
  | none => Json.Msg none formatted
  | some _ => none

/-! The severity-routed sink `loggingT.outputj`.  File-system writes,
stack captures and process exit become an event trace; the record bytes,
the `stacks(false)` / `stacks(true)` captures and the pre-`flag.Parse`
diagnostic prefix are distinguished payloads.  The parts of `loggingT`
that `outputj` reads become the `LogState` record. -/

/-- What a single `Write` call carries. -/
inductive Payload where
  /-- the record bytes `buf.p` (`withTrace` true when the traceLocation
  branch appended `stacks(false)` to them first). -/
  | record (withTrace : Bool)
  /-- the `"ERROR: logging before flag.Parse: "` diagnostic prefix. -/
  | beforeFlagParse
  /-- `stacks(false)`: the current goroutine's stack. -/
  | stackCurrent
  /-- `stacks(true)`: the stacks of all goroutines. -/
  | stackAll
deriving DecidableEq

/-- One observable step of `outputj`. -/
inductive Ev where
  | writeStderr (p : Payload)
  | writeFile (tier : Nat) (p : Payload)
  /-- `timeoutFlush(10 * time.Second)`. -/
  | flushTimeout
deriving DecidableEq

/-- How `outputj` terminates the process, when it does. -/
inductive ExitKind where
  /-- `os.Exit(code)` called directly by `outputj`. -/
  | osExit (code : Nat)
  /-- `l.exit(err)`: the sink's error-exit path.  Modelled from the spec:
  `loggingT.exit` is not under src/; the spec says a file-creation
  failure "is treated as fatal to the whole process", so the call is
  modelled as terminating. -/
  | sinkExit
deriving DecidableEq

/-- The fields of the `logging` singleton that `outputj` consults, plus
the two process-wide inputs it reads (`flag.Parsed()`, whether
`l.createFiles` would succeed). -/
structure LogState where
  flagParsed : Bool
  toStderr : Bool
  alsoToStderr : Bool
  stderrThreshold : Nat
  traceLocationSet : Bool
  fileOpen : Nat → Bool
  createFilesOk : Bool

/-- The tiers hit by the `switch s` with `fallthrough` in `outputj`:
tier `s` and every tier below it, in descending order (no `default`
case, so an out-of-range severity writes nowhere). -/
def fanout (s : Nat) : List Nat :=
  if s = fatalLog then [3, 2, 1, 0]
  else if s = errorLog then [2, 1, 0]
  else if s = warningLog then [1, 0]
  else if s = infoLog then [0]
  else []

/-- The routing phase of `outputj` (everything before the
`if s == fatalLog` block): the events emitted, the exit taken (only the
`l.exit` path can fire here, and it does not return), and the file-open
map afterwards.  `l.createFiles(s)` is modelled from the spec (it is not
under src/): per §4.5 it lazily creates the file for the tier, and the
unguarded cascade that follows relies on every tier at or below `s`
being open, so a successful call opens exactly those. -/
def outputjRoute (l : LogState) (s : Nat) (alsoToStderr : Bool) (data : Payload) :
    List Ev × Option ExitKind × (Nat → Bool) :=
  if !l.flagParsed then
    ([Ev.writeStderr Payload.beforeFlagParse, Ev.writeStderr data], none, l.fileOpen)
  else if l.toStderr then
    ([Ev.writeStderr data], none, l.fileOpen)
  else
    let w1 := if alsoToStderr || l.alsoToStderr || l.stderrThreshold ≤ s then
      [Ev.writeStderr data] else []
    if l.fileOpen s then
      (w1 ++ (fanout s).map (Ev.writeFile · data), none, l.fileOpen)
    else if l.createFilesOk then
      let fo := fun t => l.fileOpen t || decide (t ≤ s)
      (w1 ++ (fanout s).map (Ev.writeFile · data), none, fo)
    else
      (w1 ++ [Ev.writeStderr data], some ExitKind.sinkExit, l.fileOpen)

/-- outputj.  `traceMatch` stands for `l.traceLocation.match(file, line)`;
`fatalNoStacks` for `atomic.LoadUint32(&fatalNoStacks) > 0`.  The
unmodelled tail (returning the buffer to `jbufpool`, bumping the atomic
`severityStats` counters) performs no writes and no exit. -/
def outputj (l : LogState) (s : Nat) (alsoToStderr : Bool) (traceMatch : Bool)
    (fatalNoStacks : Bool) : List Ev × Option ExitKind :=
  match outputjRoute l s alsoToStderr (Payload.record (l.traceLocationSet && traceMatch)) with
  | (evs, some e, _) => (evs, some e)
  | (evs, none, fo) =>
    if s = fatalLog then
      if fatalNoStacks then
        (evs ++ [Ev.flushTimeout], some (ExitKind.osExit 1))
      else
        (evs
          ++ (if !l.toStderr then [Ev.writeStderr Payload.stackCurrent] else [])
          ++ ((fanout fatalLog).filterMap fun t =>
                if fo t then some (Ev.writeFile t Payload.stackAll) else none)
          ++ [Ev.flushTimeout], some (ExitKind.osExit 255))
    else (evs, none)

/-! A small JSON syntax checker over `List Char`, used to state the
round-trip/validity claims about emitted records, and an inverse of the
string escaping. -/

/-- Value of an ASCII hex digit (lower or upper case). -/
def hexVal (c : Char) : Option Nat :=
  if '0' ≤ c ∧ c ≤ '9' then some (c.toNat - 48)
  else if 'a' ≤ c ∧ c ≤ 'f' then some (c.toNat - 87)
  else if 'A' ≤ c ∧ c ≤ 'F' then some (c.toNat - 55)
  else none

/-- JSON insignificant whitespace. -/
def isWsChar (c : Char) : Bool := c = ' ' || c = '\t' || c = '\n' || c = '\r'

def skipWs : List Char → List Char
  | [] => []
  | c :: r => if isWsChar c then skipWs r else c :: r

/-- Consume the rest of a JSON string literal (the opening quote already
eaten); `none` when it is malformed. -/
def eatStringRest : List Char → Option (List Char)
  | [] => none
  | c :: r =>
    if c = '"' then some r
    else if c = '\\' then
      match r with
      | [] => none
      | e :: r2 =>
        if e = 'u' then
          match r2 with
          | a :: b :: c2 :: d :: r3 =>
            if (hexVal a).isSome && (hexVal b).isSome
                && (hexVal c2).isSome && (hexVal d).isSome then
              eatStringRest r3
            else none
          | _ => none
        else if e = '"' || e = '\\' || e = '/' || e = 'b' || e = 'f'
            || e = 'n' || e = 'r' || e = 't' then
          eatStringRest r2
        else none
    else if c.toNat < 0x20 then none
    else eatStringRest r

def isDigitChar (c : Char) : Bool := '0' ≤ c && c ≤ '9'

/-- Strip a leading digit run, returning its length and the rest. -/
def takeDigits : List Char → Nat × List Char
  | [] => (0, [])
  | c :: r =>
    if isDigitChar c then
      let (n, r2) := takeDigits r
      (n + 1, r2)
    else (0, c :: r)

/-- Consume the fraction part of a JSON number, if present. -/
def eatFrac : List Char → Option (List Char)
  | '.' :: r =>
    match takeDigits r with
    | (0, _) => none
    | (_ + 1, r2) => some r2
  | r => some r

/-- Consume the exponent part of a JSON number, if present. -/
def eatExp : List Char → Option (List Char)
  | [] => some []
  | c :: r =>
    if c = 'e' || c = 'E' then
      let r2 := match r with
        | s :: r3 => if s = '+' || s = '-' then r3 else s :: r3
        | [] => []
      match takeDigits r2 with
      | (0, _) => none
      | (_ + 1, r3) => some r3
    else some (c :: r)

/-- Consume a JSON number (lax about leading zeros). -/
def eatNumber (cs : List Char) : Option (List Char) :=
  let cs := match cs with
    | '-' :: r => r
    | r => r
  match takeDigits cs with
  | (0, _) => none
  | (_ + 1, r) =>
    match eatFrac r with
    | none => none
    | some r2 => eatExp r2

/-- Parsing modes of the fuel-indexed JSON reader: a value, the members
of an object after `{`, the elements of an array after `[`. -/
inductive PMode where
  | val
  | members
  | elems

/-- Consume one JSON production in mode `m`; structural in the fuel so a
concrete run reduces definitionally. -/
def eatJson : Nat → PMode → List Char → Option (List Char)
  | 0, _, _ => none
  | f + 1, PMode.val, cs =>
    match skipWs cs with
    | [] => none
    | c :: r =>
      if c = '"' then eatStringRest r
      else if c = '{' then
        match skipWs r with
        | '}' :: r2 => some r2
        | _ => eatJson f PMode.members r
      else if c = '[' then
        match skipWs r with
        | ']' :: r2 => some r2
        | _ => eatJson f PMode.elems r
      else if c = 't' then
        match r with
        | 'r' :: 'u' :: 'e' :: r2 => some r2
        | _ => none
      else if c = 'f' then
        match r with
        | 'a' :: 'l' :: 's' :: 'e' :: r2 => some r2
        | _ => none
      else if c = 'n' then
        match r with
        | 'u' :: 'l' :: 'l' :: r2 => some r2
        | _ => none
      else eatNumber (c :: r)
  | f + 1, PMode.members, cs =>
    match skipWs cs with
    | '"' :: r =>
      match eatStringRest r with
      | none => none
      | some r2 =>
        match skipWs r2 with
        | ':' :: r3 =>
          match eatJson f PMode.val r3 with
          | none => none
          | some r4 =>
            match skipWs r4 with
            | ',' :: r5 => eatJson f PMode.members r5
            | '}' :: r5 => some r5
            | _ => none
        | _ => none
    | _ => none
  | f + 1, PMode.elems, cs =>
    match eatJson f PMode.val cs with
    | none => none
    | some r =>
      match skipWs r with
      | ',' :: r2 => eatJson f PMode.elems r2
      | ']' :: r2 => some r2
      | _ => none

/-- Whether `cs` is one syntactically valid JSON value (with trailing
whitespace allowed). -/
def isValidJson (cs : List Char) : Bool :=
  match eatJson (cs.length + 1) PMode.val cs with
  | some r => (skipWs r).isEmpty
  | none => false

/-- Inverse of the escaping of `Json.string`: decode the body of a JSON
string literal back to its characters; `none` on a malformed body. -/
def unescapeBody : List Char → Option (List Char)
  | [] => some []
  | c :: r =>
    if c = '\\' then
      match r with
      | [] => none
      | e :: r2 =>
        if e = 'n' then (unescapeBody r2).map ('\n' :: ·)
        else if e = 'r' then (unescapeBody r2).map ('\r' :: ·)
        else if e = 't' then (unescapeBody r2).map ('\t' :: ·)
        else if e = '\\' then (unescapeBody r2).map ('\\' :: ·)
        else if e = '"' then (unescapeBody r2).map ('"' :: ·)
        else if e = '/' then (unescapeBody r2).map ('/' :: ·)
        else if e = 'u' then
          match r2 with
          | a :: b :: c2 :: d :: r3 =>
            match hexVal a, hexVal b, hexVal c2, hexVal d with
            | some x, some y, some z, some w =>
              (unescapeBody r3).map (Char.ofNat (x * 4096 + y * 256 + z * 16 + w) :: ·)
            | _, _, _, _ => none
          | _ => none
        else none
    else if c = '"' then none
    else if c.toNat < 0x20 then none
    else (unescapeBody r).map (c :: ·)

/-! Helper lemmas about the escaping routine: the escape of each input
character decodes back to it, is consumed by the JSON string reader, and
(in HTML mode) introduces no angle bracket or ampersand. -/

lemma charOfNat_toNat (c : Char) : Char.ofNat c.toNat = c := by
  have hv : c.toNat.isValidChar := by
    rcases c with ⟨v, h⟩
    simpa [Char.toNat, UInt32.isValidChar] using h
  rcases c with ⟨v, h⟩
  simp only [Char.ofNat, hv, dif_pos, Char.ofNatAux]
  congr 1

lemma safeSet_spec {c : Char} (h : safeSet c = true) :
    0x20 ≤ c.toNat ∧ c ≠ '"' ∧ c ≠ '\\' := by
  simp only [safeSet, Bool.and_eq_true, Bool.not_eq_true', decide_eq_true_eq,
    decide_eq_false_iff_not] at h
  exact ⟨h.1.1, h.1.2, h.2⟩

lemma htmlSafeSet_spec {c : Char} (h : htmlSafeSet c = true) :
    safeSet c = true ∧ c ≠ '<' ∧ c ≠ '>' ∧ c ≠ '&' := by
  simp only [htmlSafeSet, Bool.and_eq_true, Bool.not_eq_true',
    decide_eq_false_iff_not] at h
  exact ⟨h.1.1.1, h.1.1.2, h.1.2, h.2⟩

lemma safe_cases {e : Bool} {c : Char} (hsafe : (htmlSafeSet c || (!e && safeSet c)) = true) :
    safeSet c = true := by
  simp only [Bool.or_eq_true, Bool.and_eq_true] at hsafe
  rcases hsafe with h | ⟨_, h⟩
  · exact (htmlSafeSet_spec h).1
  · exact h

lemma hexVal_hexChar {n : Nat} (h : n < 16) : hexVal (hexChar n) = some n := by
  interval_cases n <;> decide

lemma unescape_safe {c : Char} (r : List Char) (hbs : c ≠ '\\') (hq : c ≠ '"')
    (hge : 0x20 ≤ c.toNat) :
    unescapeBody (c :: r) = (unescapeBody r).map (c :: ·) := by
  rw [unescapeBody.eq_def]
  simp only []
  rw [if_neg hbs, if_neg hq, if_neg (by omega : ¬ c.toNat < 0x20)]

lemma unescape_hexEscape {hi lo : Nat} (hhi : hi < 16) (hlo : lo < 16) (r : List Char) :
    unescapeBody ('\\' :: 'u' :: '0' :: '0' :: hexChar hi :: hexChar lo :: r)
      = (unescapeBody r).map (Char.ofNat (hi * 16 + lo) :: ·) := by
  rw [unescapeBody.eq_def]
  simp only []
  simp only [hexVal_hexChar hhi, hexVal_hexChar hlo]
  simp [hexVal]

lemma unescape_jchunk (e : Bool) (c : Char) (r : List Char) :
    unescapeBody (jchunk e c ++ r) = (unescapeBody r).map (c :: ·) := by
  by_cases h80 : c.toNat < 0x80
  · by_cases hsafe : (htmlSafeSet c || (!e && safeSet c)) = true
    · obtain ⟨hge, hq, hbs⟩ := safeSet_spec (safe_cases hsafe)
      unfold jchunk
      rw [if_pos h80, if_pos hsafe]
      exact unescape_safe r hbs hq hge
    · by_cases hq2 : (c = '\\' ∨ c = '"')
      · unfold jchunk
        rw [if_pos h80, if_neg hsafe, if_pos (by simpa using hq2)]
        rcases hq2 with h | h <;> subst h <;>
          · rw [unescapeBody.eq_def]
            simp [unescapeBody]
      · have hq2' : ¬ ((c = '\\' || c = '"') = true) := by simpa using hq2
        by_cases hn : c = '\n'
        · unfold jchunk
          rw [if_pos h80, if_neg hsafe, if_neg hq2', if_pos hn]
          subst hn; rw [unescapeBody.eq_def]; simp [unescapeBody]
        · by_cases hr : c = '\r'
          · unfold jchunk
            rw [if_pos h80, if_neg hsafe, if_neg hq2', if_neg hn, if_pos hr]
            subst hr; rw [unescapeBody.eq_def]; simp [unescapeBody]
          · by_cases ht : c = '\t'
            · unfold jchunk
              rw [if_pos h80, if_neg hsafe, if_neg hq2', if_neg hn, if_neg hr, if_pos ht]
              subst ht; rw [unescapeBody.eq_def]; simp [unescapeBody]
            · unfold jchunk
              rw [if_pos h80, if_neg hsafe, if_neg hq2', if_neg hn, if_neg hr, if_neg ht]
              simp only [List.cons_append, List.nil_append]
              rw [unescape_hexEscape (by omega : c.toNat / 16 < 16) (by omega : c.toNat % 16 < 16) r]
              have h16 : c.toNat / 16 * 16 + c.toNat % 16 = c.toNat := by omega
              rw [h16, charOfNat_toNat]
  · by_cases h2028 : (c = ' ' ∨ c = ' ')
    · unfold jchunk
      rw [if_neg h80, if_pos (by simpa using h2028)]
      rcases h2028 with h | h <;> subst h <;>
        · rw [unescapeBody.eq_def]
          simp [(by decide : hexVal (hexChar 8) = some 8),
            (by decide : hexVal (hexChar 9) = some 9),
            (by decide : hexVal '2' = some 2), (by decide : hexVal '0' = some 0),
            (by decide : Char.ofNat 8232 = '\u2028'),
            (by decide : Char.ofNat 8233 = '\u2029')]
    · have h2028' : ¬ ((c = ' ' || c = ' ') = true) := by simpa using h2028
      unfold jchunk
      rw [if_neg h80, if_neg h2028']
      refine unescape_safe r ?_ ?_ (by omega)
      · intro h; subst h; exact h80 (by decide)
      · intro h; subst h; exact h80 (by decide)

lemma unescape_jstringBody_append (e : Bool) (s r : List Char) :
    unescapeBody (jstringBody e s ++ r) = (unescapeBody r).map (s ++ ·) := by
  induction s with
  | nil => simp [jstringBody]
  | cons c s ih =>
    rw [jstringBody, List.append_assoc, unescape_jchunk, ih, Option.map_map]
    rfl

lemma unescape_jstringBody (e : Bool) (s : List Char) :
    unescapeBody (jstringBody e s) = some s := by
  have h := unescape_jstringBody_append e s []
  simpa [unescapeBody] using h

lemma eatString_safe {c : Char} (r : List Char) (hbs : c ≠ '\\') (hq : c ≠ '"')
    (hge : 0x20 ≤ c.toNat) :
    eatStringRest (c :: r) = eatStringRest r := by
  rw [eatStringRest.eq_def]
  simp only []
  rw [if_neg hq, if_neg hbs, if_neg (by omega : ¬ c.toNat < 0x20)]

lemma eatString_jchunk (e : Bool) (c : Char) (r : List Char) :
    eatStringRest (jchunk e c ++ r) = eatStringRest r := by
  by_cases h80 : c.toNat < 0x80
  · by_cases hsafe : (htmlSafeSet c || (!e && safeSet c)) = true
    · obtain ⟨hge, hq, hbs⟩ := safeSet_spec (safe_cases hsafe)
      unfold jchunk
      rw [if_pos h80, if_pos hsafe]
      exact eatString_safe r hbs hq hge
    · by_cases hq2 : (c = '\\' ∨ c = '"')
      · unfold jchunk
        rw [if_pos h80, if_neg hsafe, if_pos (by simpa using hq2)]
        rcases hq2 with h | h <;> subst h <;>
          · rw [eatStringRest.eq_def]
            simp
      · have hq2a : ¬ ((c = '\\' || c = '"') = true) := by simpa using hq2
        by_cases hn : c = '\n'
        · unfold jchunk
          rw [if_pos h80, if_neg hsafe, if_neg hq2a, if_pos hn]
          subst hn; rw [eatStringRest.eq_def]; simp
        · by_cases hr : c = '\r'
          · unfold jchunk
            rw [if_pos h80, if_neg hsafe, if_neg hq2a, if_neg hn, if_pos hr]
            subst hr; rw [eatStringRest.eq_def]; simp
          · by_cases ht : c = '\t'
            · unfold jchunk
              rw [if_pos h80, if_neg hsafe, if_neg hq2a, if_neg hn, if_neg hr, if_pos ht]
              subst ht; rw [eatStringRest.eq_def]; simp
            · unfold jchunk
              rw [if_pos h80, if_neg hsafe, if_neg hq2a, if_neg hn, if_neg hr, if_neg ht]
              simp only [List.cons_append, List.nil_append]
              rw [eatStringRest.eq_def]
              simp [hexVal_hexChar (by omega : c.toNat / 16 < 16),
                hexVal_hexChar (by omega : c.toNat % 16 < 16),
                (by decide : hexVal '0' = some 0)]
  · by_cases h2028 : (c = '\u2028' ∨ c = '\u2029')
    · rcases h2028 with h | h <;> subst h
      · rw [(by cases e <;> decide :
          jchunk e '\u2028' = ['\\', 'u', '2', '0', '2', '8'])]
        rw [eatStringRest.eq_def]
        simp [(by decide : hexVal '2' = some 2), (by decide : hexVal '0' = some 0),
          (by decide : hexVal '8' = some 8)]
      · rw [(by cases e <;> decide :
          jchunk e '\u2029' = ['\\', 'u', '2', '0', '2', '9'])]
        rw [eatStringRest.eq_def]
        simp [(by decide : hexVal '2' = some 2), (by decide : hexVal '0' = some 0),
          (by decide : hexVal '9' = some 9)]
    · have h2028a : ¬ ((c = '\u2028' || c = '\u2029') = true) := by simpa using h2028
      unfold jchunk
      rw [if_neg h80, if_neg h2028a]
      refine eatString_safe r ?_ ?_ (by omega)
      · intro h; subst h; exact h80 (by decide)
      · intro h; subst h; exact h80 (by decide)

lemma hexChar_notHtml {n : Nat} (h : n < 16) :
    hexChar n ≠ '<' ∧ hexChar n ≠ '>' ∧ hexChar n ≠ '&' := by
  interval_cases n <;> exact ⟨by decide, by decide, by decide⟩

lemma jchunk_htmlFree (c : Char) :
    ∀ x ∈ jchunk true c, x ≠ '<' ∧ x ≠ '>' ∧ x ≠ '&' := by
  intro x hx
  by_cases h80 : c.toNat < 0x80
  · by_cases hsafe : (htmlSafeSet c || (!true && safeSet c)) = true
    · have hh : htmlSafeSet c = true := by simpa using hsafe
      unfold jchunk at hx
      rw [if_pos h80, if_pos hsafe] at hx
      simp only [List.mem_singleton] at hx
      subst hx
      obtain ⟨_, h1, h2, h3⟩ := htmlSafeSet_spec hh
      exact ⟨h1, h2, h3⟩
    · unfold jchunk at hx
      rw [if_pos h80, if_neg hsafe] at hx
      by_cases hq2 : ((c = '\\' || c = '"') = true)
      · rw [if_pos hq2] at hx
        have : c = '\\' ∨ c = '"' := by simpa using hq2
        simp only [List.mem_cons, List.mem_singleton, List.not_mem_nil, or_false] at hx
        rcases hx with h | h <;> subst h
        · exact ⟨by decide, by decide, by decide⟩
        · rcases this with h | h <;> subst h <;> exact ⟨by decide, by decide, by decide⟩
      · rw [if_neg hq2] at hx
        by_cases hn : c = '\n'
        · rw [if_pos hn] at hx
          simp only [List.mem_cons, List.not_mem_nil, or_false] at hx
          rcases hx with h | h <;> subst h <;> exact ⟨by decide, by decide, by decide⟩
        · rw [if_neg hn] at hx
          by_cases hr : c = '\r'
          · rw [if_pos hr] at hx
            simp only [List.mem_cons, List.not_mem_nil, or_false] at hx
            rcases hx with h | h <;> subst h <;> exact ⟨by decide, by decide, by decide⟩
          · rw [if_neg hr] at hx
            by_cases ht : c = '\t'
            · rw [if_pos ht] at hx
              simp only [List.mem_cons, List.not_mem_nil, or_false] at hx
              rcases hx with h | h <;> subst h <;> exact ⟨by decide, by decide, by decide⟩
            · rw [if_neg ht] at hx
              simp only [List.mem_cons, List.not_mem_nil, or_false] at hx
              rcases hx with h | h | h | h | h | h <;> subst h
              · exact ⟨by decide, by decide, by decide⟩
              · exact ⟨by decide, by decide, by decide⟩
              · exact ⟨by decide, by decide, by decide⟩
              · exact ⟨by decide, by decide, by decide⟩
              · exact hexChar_notHtml (by omega : c.toNat / 16 < 16)
              · exact hexChar_notHtml (by omega : c.toNat % 16 < 16)
  · by_cases h2028 : ((c = '\u2028' || c = '\u2029') = true)
    · unfold jchunk at hx
      rw [if_neg h80, if_pos h2028] at hx
      have hc : c = '\u2028' ∨ c = '\u2029' := by simpa using h2028
      simp only [List.mem_cons, List.not_mem_nil, or_false] at hx
      rcases hx with h | h | h | h | h | h <;> subst h
      · exact ⟨by decide, by decide, by decide⟩
      · exact ⟨by decide, by decide, by decide⟩
      · exact ⟨by decide, by decide, by decide⟩
      · exact ⟨by decide, by decide, by decide⟩
      · exact ⟨by decide, by decide, by decide⟩
      · rcases hc with h | h <;> subst h <;>
          exact hexChar_notHtml (by decide)
    · unfold jchunk at hx
      rw [if_neg h80, if_neg h2028] at hx
      simp only [List.mem_singleton] at hx
      subst hx
      refine ⟨?_, ?_, ?_⟩ <;> · intro h; subst h; exact h80 (by decide)

lemma jstringBody_htmlFree (s : List Char) :
    ∀ x ∈ jstringBody true s, x ≠ '<' ∧ x ≠ '>' ∧ x ≠ '&' := by
  induction s with
  | nil => simp [jstringBody]
  | cons c s ih =>
    intro x hx
    rw [jstringBody] at hx
    rcases List.mem_append.mp hx with h | h
    · exact jchunk_htmlFree c x h
    · exact ih x h

/-! Concrete fixtures used by the counterexamples and witnesses. -/

/-- Extract the record bytes of a sink call (empty for the nil handle,
which performs no call). -/
def sinkData : Option SinkCall → List Char
  | some c => c.data
  | none => []

def cfgEx : JConfig := ⟨[], [], false⟩

def cfgHtmlEx : JConfig := ⟨[], [], true⟩

def nowEx : TimeParts := ⟨2024, 1, 2, 3, 4, 5, 0, 1704164645, 123456⟩

def poolEx : Json := ⟨[], 0, [], 0⟩

def jEx : Json := jheader cfgEx nowEx "h".toList 7 poolEx infoLog 0 "f.go".toList 1

def jHtmlEx : Json := jheader cfgHtmlEx nowEx "h".toList 7 poolEx infoLog 0 "f.go".toList 1

/-- The record emitted for a header plus a `Strs` field plus `Msg "m"`. -/
def strsRecordEx : List Char :=
  sinkData (Json.Msg (Json.Strs cfgEx (some jEx) "k".toList ["a".toList, "b".toList]) "m".toList)

/-- The record emitted for a header plus a `Str` field plus `Msg "m"`. -/
def strRecordEx : List Char :=
  sinkData (Json.Msg (Json.Str cfgEx (some jEx) "k2".toList "v".toList) "m".toList)

/-- The record emitted for a header closed with the empty message. -/
def emptyMsgRecordEx : List Char := sinkData (Json.Msg (some jEx) [])

/-- C2: the JSON record constructor returns a non-nil (active) handle iff
the requested level is within the resolved threshold: the global
verbosity covers it, or vmodule filters are present, the call site is
resolvable, and its cached-or-freshly-resolved threshold covers it. -/
theorem c2_json_active_iff (cfg : JConfig) (now : TimeParts) (host : List Char)
    (pid : Int) (pool : Json) (env : JsonEnv) (s : Nat) (level : Level) :
    json cfg now host pid pool env s level ≠ none ↔
      (level ≤ env.verbosity ∨
        (0 < env.filterLength ∧ env.callersN ≠ 0 ∧
          level ≤ env.vmapEntry.getD env.setVResult)) := by
  unfold json
  split_ifs with h1 h2 h3 h4 <;> simp_all

/-- C3: the source guards the body of `Msgf` with the inverted test
`if j == nil`, so `Msgf` on an active (non-nil) handle performs nothing
at all, while `Msg` on the same handle hands the record to the sink; on
the nil handle `Msgf` calls the no-op `Msg` and nothing fails. -/
theorem c3_Msgf_never_emits :
    Json.Msgf (some jEx) "hi".toList = none ∧
    Json.Msg (some jEx) "hi".toList ≠ none ∧
    Json.Msgf none "hi".toList = none := by
  refine ⟨rfl, ?_, rfl⟩
  simp [Json.Msg]

/-- C4: a record carrying a `Strs` field is not valid JSON (the field is
glued to its left neighbour without a comma and followed by a double
comma), while the same record built with `Str` instead is valid. -/
theorem c4_strs_record_invalid_json :
    isValidJson strsRecordEx = false ∧ isValidJson strRecordEx = true := by
  exact ⟨by decide, by decide⟩

/-- C5 counterexample: `Msg` encodes the message with HTML-escaping
hard-wired off (`j.string(s, false)`), so even with `JEscapeHTML` set the
emitted record contains a literal `<` from the message, which the
HTML-escaping encoder would have removed. -/
theorem c5_msg_ignores_JEscapeHTML :
    cfgHtmlEx.JEscapeHTML = true ∧
    '<' ∈ sinkData (Json.Msg (some jHtmlEx) "<a>".toList) ∧
    '<' ∉ jstring true "<a>".toList := by
  exact ⟨rfl, by decide, by decide⟩

/-- C5 (amended): the escaping is correct as a JSON encoder — for every
message the encoded body decodes back to the message exactly (so quote,
backslash, newline, control bytes such as 0x01 and the U+2028/U+2029
separators are all escaped reversibly and the result is a well-formed
JSON string literal), and HTML-escaped output (used by the field
builders when `JEscapeHTML` is set, but not by `Msg`) holds no literal
`<`, `>` or `&`. -/
theorem c5_escaping_reversible_and_html_safe (e : Bool) (s : List Char) :
    unescapeBody (jstringBody e s) = some s ∧
    (∀ r, eatStringRest (jstringBody e s ++ '"' :: r) = some r) ∧
    ∀ x ∈ jstringBody true s, x ≠ '<' ∧ x ≠ '>' ∧ x ≠ '&' := by
  refine ⟨unescape_jstringBody e s, ?_, jstringBody_htmlFree s⟩
  intro r
  induction s with
  | nil =>
    simp only [jstringBody, List.nil_append]
    rw [eatStringRest.eq_def]
    simp
  | cons c s ih =>
    rw [jstringBody, List.append_assoc, eatString_jchunk]
    exact ih

theorem c5_escaping_reversible_witness :
    unescapeBody (jstringBody false ['"', '\n']) = some ['"', '\n'] ∧
    '<' ∉ jstringBody true ['<'] := by
  constructor
  · exact (c5_escaping_reversible_and_html_safe false ['"', '\n']).1
  · intro hmem
    exact ((c5_escaping_reversible_and_html_safe true ['<']).2.2 '<' hmem).1 rfl

/-- C9 counterexample: closing a record with `Msg ""` omits the
`message` field entirely (`if s != ""` guards it), so the emitted record
holds no `"message"` key at all. -/
theorem c9_empty_msg_has_no_message_field :
    ¬ ("\"message\"".toList <:+: emptyMsgRecordEx) := by decide

/-- C9 (amended): for every non-empty message the record ends with a
terminal `message` field — the buffer so far, then `,"message":`, then
the JSON string of the message, then the closing brace and newline — but
for the empty message the field is omitted and the record is closed
directly. -/
theorem c9_terminal_message_amended (j : Json) (s : List Char) (hs : s ≠ []) :
    msgClose j.p s =
      j.p ++ ",\"message\":".toList ++ jstring false s ++ ['}', '\n'] ∧
    msgClose j.p [] = j.p ++ ['}', '\n'] ∧
    ∃ b, msgClose j.p s =
      j.p ++ ",\"message\":".toList ++ '"' :: b ++ ['"', '}', '\n'] := by
  refine ⟨?_, by simp [msgClose], ⟨jstringBody false s, ?_⟩⟩ <;>
    simp [msgClose, jstring, hs, List.append_assoc]

theorem c9_terminal_message_witness :
    msgClose jEx.p "m".toList =
      jEx.p ++ ",\"message\":".toList ++ jstring false "m".toList ++ ['}', '\n'] := by
  exact (c9_terminal_message_amended jEx "m".toList (by decide)).1

/-- C10: `Err` always writes the fixed `"error"` key — its output does
not depend on `JFieldPrefix` at all — while every named field builder
(`Int64`, `Uint64`, `Float64`, `Bool`, `Str`, `Strs`) prepends the
non-empty `JFieldPrefix` to the caller-supplied name. -/
theorem c10_err_fixed_key_others_prefixed (cfg : JConfig) (j : Json)
    (name : List Char) (i : Int) (u : Nat) (fch : List Char) (b : Bool)
    (sv : List Char) (ss : List (List Char)) (et : List Char) (pre2 : List Char)
    (hpre : cfg.JFieldPrefix ≠ []) :
    Json.Err { cfg with JFieldPrefix := pre2 } (some j) et = Json.Err cfg (some j) et ∧
    Json.Err cfg (some j) et =
      some { j with p := j.p ++ ",\"error\":".toList ++ jstring cfg.JEscapeHTML et } ∧
    Json.Int64 cfg (some j) name i =
      some { j with p := j.p ++ ',' :: '"' :: cfg.JFieldPrefix ++ name
        ++ '"' :: ':' :: intChars i } ∧
    Json.Uint64 cfg (some j) name u =
      some { j with p := j.p ++ ',' :: '"' :: cfg.JFieldPrefix ++ name
        ++ '"' :: ':' :: natChars u } ∧
    Json.Float64 cfg (some j) name fch =
      some { j with p := j.p ++ ',' :: '"' :: cfg.JFieldPrefix ++ name
        ++ '"' :: ':' :: fch } ∧
    Json.Bool cfg (some j) name b =
      some { j with p := j.p ++ ',' :: '"' :: cfg.JFieldPrefix ++ name
        ++ (if b then ['"', ':', 't', 'r', 'u', 'e'] else ['"', ':', 'f', 'a', 'l', 's', 'e']) } ∧
    Json.Str cfg (some j) name sv =
      some { j with p := j.p ++ ',' :: '"' :: cfg.JFieldPrefix ++ name
        ++ '"' :: ':' :: jstring cfg.JEscapeHTML sv } ∧
    Json.Strs cfg (some j) name ss =
      some { j with p := j.p ++ '"' :: cfg.JFieldPrefix ++ name
        ++ '"' :: ':' :: '[' ::
        List.intercalate [','] (ss.map (jstring cfg.JEscapeHTML)) ++ [']', ','] } := by
  refine ⟨rfl, rfl, ?_, ?_, ?_, ?_, ?_, ?_⟩ <;>
    simp [Json.Int64, Json.Uint64, Json.Float64, Json.Bool, Json.Str, Json.Strs, hpre]

theorem c10_err_fixed_key_witness :
    Json.Err cfgEx (some jEx) "e".toList =
      some { jEx with p := jEx.p ++ ",\"error\":".toList ++ jstring cfgEx.JEscapeHTML "e".toList } ∧
    Json.Int64 ⟨[], "p_".toList, false⟩ (some jEx) "n".toList 5 =
      some { jEx with p := jEx.p ++ ',' :: '"' :: "p_".toList ++ "n".toList
        ++ '"' :: ':' :: intChars 5 } := by
  have h := c10_err_fixed_key_others_prefixed ⟨[], "p_".toList, false⟩ jEx "n".toList 5 0
    [] false [] [] "e".toList [] (by decide)
  exact ⟨h.2.1, h.2.2.1⟩

/-! Helper lemmas about the sink. -/

lemma mem_fanout {s t : Nat} (hs : s ≤ 3) : t ∈ fanout s ↔ t ≤ s := by
  interval_cases s <;>
    simp [fanout, infoLog, warningLog, errorLog, fatalLog] <;> omega

lemma outputjRoute_fileOpen (l : LogState) (s : Nat) (a : Bool) (data : Payload)
    (hfp : l.flagParsed = true) (hts : l.toStderr = false) (hopen : l.fileOpen s = true) :
    outputjRoute l s a data =
      ((if a || l.alsoToStderr || decide (l.stderrThreshold ≤ s)
          then [Ev.writeStderr data] else [])
        ++ (fanout s).map (Ev.writeFile · data), none, l.fileOpen) := by
  unfold outputjRoute
  rw [hfp, hts]
  simp [hopen]

lemma outputjRoute_preParse (l : LogState) (s : Nat) (a : Bool) (data : Payload)
    (hfp : l.flagParsed = false) :
    outputjRoute l s a data =
      ([Ev.writeStderr Payload.beforeFlagParse, Ev.writeStderr data], none, l.fileOpen) := by
  unfold outputjRoute
  rw [hfp]
  simp

lemma outputjRoute_stderrOnly (l : LogState) (s : Nat) (a : Bool) (data : Payload)
    (hfp : l.flagParsed = true) (hts : l.toStderr = true) :
    outputjRoute l s a data = ([Ev.writeStderr data], none, l.fileOpen) := by
  unfold outputjRoute
  rw [hfp, hts]
  simp

lemma outputjRoute_createFail (l : LogState) (s : Nat) (a : Bool) (data : Payload)
    (hfp : l.flagParsed = true) (hts : l.toStderr = false)
    (hno : l.fileOpen s = false) (hcf : l.createFilesOk = false) :
    outputjRoute l s a data =
      ((if a || l.alsoToStderr || decide (l.stderrThreshold ≤ s)
          then [Ev.writeStderr data] else []) ++ [Ev.writeStderr data],
        some ExitKind.sinkExit, l.fileOpen) := by
  unfold outputjRoute
  rw [hfp, hts]
  simp [hno, hcf]

lemma getLast?_concat2 {α : Type} (L : List α) (a : α) : (L ++ [a]).getLast? = some a := by
  rw [List.getLast?_append_cons]
  rfl

lemma getLast?_cons_append {α : Type} (x : α) (L : List α) (a : α) :
    (x :: (L ++ [a])).getLast? = some a := getLast?_concat2 (x :: L) a

lemma outputj_fatal_eq_noStacks_stderr (l : LogState) (a tm : Bool)
    (hfp : l.flagParsed = true) (hts : l.toStderr = true) :
    outputj l fatalLog a tm true =
      ([Ev.writeStderr (Payload.record (l.traceLocationSet && tm)), Ev.flushTimeout],
        some (ExitKind.osExit 1)) := by
  unfold outputj
  rw [outputjRoute_stderrOnly l fatalLog a _ hfp hts]
  simp

lemma outputj_fatal_eq_stacks_stderr (l : LogState) (a tm : Bool)
    (hfp : l.flagParsed = true) (hts : l.toStderr = true) :
    outputj l fatalLog a tm false =
      (Ev.writeStderr (Payload.record (l.traceLocationSet && tm)) ::
        ((fanout fatalLog).filterMap fun t =>
          if l.fileOpen t then some (Ev.writeFile t Payload.stackAll) else none)
        ++ [Ev.flushTimeout],
        some (ExitKind.osExit 255)) := by
  unfold outputj
  rw [outputjRoute_stderrOnly l fatalLog a _ hfp hts]
  simp [hts]

lemma outputj_fatal_eq_noStacks_files (l : LogState) (a tm : Bool)
    (hfp : l.flagParsed = true) (hts : l.toStderr = false) (hopen : l.fileOpen fatalLog = true) :
    outputj l fatalLog a tm true =
      ((if a || l.alsoToStderr || decide (l.stderrThreshold ≤ fatalLog)
          then [Ev.writeStderr (Payload.record (l.traceLocationSet && tm))] else [])
        ++ (fanout fatalLog).map (Ev.writeFile · (Payload.record (l.traceLocationSet && tm)))
        ++ [Ev.flushTimeout],
        some (ExitKind.osExit 1)) := by
  unfold outputj
  rw [outputjRoute_fileOpen l fatalLog a _ hfp hts hopen]
  simp

lemma outputj_fatal_eq_stacks_files (l : LogState) (a tm : Bool)
    (hfp : l.flagParsed = true) (hts : l.toStderr = false) (hopen : l.fileOpen fatalLog = true) :
    outputj l fatalLog a tm false =
      ((if a || l.alsoToStderr || decide (l.stderrThreshold ≤ fatalLog)
          then [Ev.writeStderr (Payload.record (l.traceLocationSet && tm))] else [])
        ++ (fanout fatalLog).map (Ev.writeFile · (Payload.record (l.traceLocationSet && tm)))
        ++ [Ev.writeStderr Payload.stackCurrent]
        ++ ((fanout fatalLog).filterMap fun t =>
            if l.fileOpen t then some (Ev.writeFile t Payload.stackAll) else none)
        ++ [Ev.flushTimeout],
        some (ExitKind.osExit 255)) := by
  unfold outputj
  rw [outputjRoute_fileOpen l fatalLog a _ hfp hts hopen]
  simp [hts]

lemma mem_stackAll_filterMap (l : LogState) (t : Nat) :
    Ev.writeFile t Payload.stackAll ∈
      ((fanout fatalLog).filterMap fun x =>
        if l.fileOpen x then some (Ev.writeFile x Payload.stackAll) else none) ↔
    (t ≤ fatalLog ∧ l.fileOpen t = true) := by
  simp only [List.mem_filterMap]
  constructor
  · rintro ⟨x, hx, hite⟩
    by_cases hfo : l.fileOpen x = true
    · rw [if_pos hfo] at hite
      have hxt : x = t := by
        have h2 := Option.some.inj hite
        injection h2 with h3 h4
      subst hxt
      exact ⟨(mem_fanout (le_refl 3)).mp hx, hfo⟩
    · rw [if_neg hfo] at hite
      cases hite
  · rintro ⟨h1, h2⟩
    exact ⟨t, (mem_fanout (le_refl 3)).mpr h1, by rw [if_pos h2]⟩

/-! Concrete sink states for the witnesses and counterexamples. -/

def stOpenEx : LogState := ⟨true, false, false, 2, false, fun t => decide (t ≤ 2), true⟩

def stPreEx : LogState := ⟨false, false, false, 2, false, fun _ => false, true⟩

def stFatalEx : LogState := ⟨true, false, false, 2, false, fun _ => true, true⟩

def stFailEx : LogState := ⟨true, false, false, 2, false, fun _ => false, false⟩

/-- C1: in file-logging mode (flags parsed, not stderr-only) with the
files for every tier at or below `s` open, the record handed to the sink
at severity `s` is written to exactly the files of the tiers at or below
`s`: every lower tier receives it (so the INFO file receives every
record) and no higher tier does. -/
theorem c1_severity_fanout_monotone (l : LogState) (s : Nat) (a tm fns : Bool)
    (hfp : l.flagParsed = true) (hts : l.toStderr = false) (hs : s ≤ 3)
    (hopen : ∀ t, t ≤ s → l.fileOpen t = true) :
    ∀ t, (Ev.writeFile t (Payload.record (l.traceLocationSet && tm))
        ∈ (outputj l s a tm fns).1 ↔ t ≤ s) := by
  intro t
  unfold outputj
  rw [outputjRoute_fileOpen l s a _ hfp hts (hopen s le_rfl)]
  simp only []
  by_cases hsf : s = fatalLog
  · subst hsf
    cases fns <;>
      simp [List.mem_append, List.mem_map, List.mem_filterMap, mem_fanout hs,
        apply_ite (fun L => Ev.writeFile t (Payload.record (l.traceLocationSet && tm)) ∈ L)]
  · rw [if_neg hsf]
    simp [List.mem_append, List.mem_map, mem_fanout hs,
      apply_ite (fun L => Ev.writeFile t (Payload.record (l.traceLocationSet && tm)) ∈ L)]

theorem c1_severity_fanout_monotone_witness :
    Ev.writeFile 1 (Payload.record false) ∈ (outputj stOpenEx 2 false false false).1 ∧
    Ev.writeFile 3 (Payload.record false) ∉ (outputj stOpenEx 2 false false false).1 := by
  have h := c1_severity_fanout_monotone stOpenEx 2 false false false rfl rfl (by decide)
    (fun t ht => by simpa [stOpenEx] using ht)
  exact ⟨(h 1).mpr (by decide), fun hmem => absurd ((h 3).mp hmem) (by decide)⟩

/-- C6 counterexample: in the standard fatal configuration (flags parsed,
file logging, all files open, no `fatalNoStacks`) the process exits with
status 255, but standard error never receives the all-goroutine stack
trace — it receives only the current goroutine's stack (`stacks(false)`);
the claim as stated says the all-goroutine trace is written to standard
error before the exit. -/
theorem c6_stderr_gets_no_allstacks_trace :
    (outputj stFatalEx fatalLog false false false).2 = some (ExitKind.osExit 255) ∧
    Ev.writeStderr Payload.stackAll ∉ (outputj stFatalEx fatalLog false false false).1 ∧
    Ev.writeStderr Payload.stackCurrent ∈ (outputj stFatalEx fatalLog false false false).1 := by
  exact ⟨by decide, by decide, by decide⟩

/-- C6 (amended): a FATAL record reaching the sink terminates the
process.  With `fatalNoStacks` set it exits with status 1 after a
bounded-timeout flush and writes no stack trace anywhere.  Otherwise it
exits with status 255 after a bounded-timeout flush; the current
goroutine's stack (not the all-goroutine trace) is written to standard
error when not in stderr-only mode, and the all-goroutine trace is
written to exactly the open log files. -/
theorem c6_fatal_exit_codes_amended (l : LogState) (a tm : Bool)
    (hfp : l.flagParsed = true) (hopen : l.fileOpen fatalLog = true) :
    ((outputj l fatalLog a tm true).2 = some (ExitKind.osExit 1) ∧
     (outputj l fatalLog a tm true).1.getLast? = some Ev.flushTimeout ∧
     ∀ e ∈ (outputj l fatalLog a tm true).1, ∀ t : Nat,
       e ≠ Ev.writeStderr Payload.stackAll ∧ e ≠ Ev.writeStderr Payload.stackCurrent ∧
       e ≠ Ev.writeFile t Payload.stackAll ∧ e ≠ Ev.writeFile t Payload.stackCurrent) ∧
    ((outputj l fatalLog a tm false).2 = some (ExitKind.osExit 255) ∧
     (outputj l fatalLog a tm false).1.getLast? = some Ev.flushTimeout ∧
     (l.toStderr = false →
       Ev.writeStderr Payload.stackCurrent ∈ (outputj l fatalLog a tm false).1) ∧
     ∀ t : Nat, Ev.writeFile t Payload.stackAll ∈ (outputj l fatalLog a tm false).1 ↔
       (t ≤ fatalLog ∧ l.fileOpen t = true)) := by
  by_cases hts : l.toStderr = true
  · rw [outputj_fatal_eq_noStacks_stderr l a tm hfp hts,
      outputj_fatal_eq_stacks_stderr l a tm hfp hts]
    refine ⟨⟨rfl, rfl, ?_⟩, rfl, getLast?_cons_append _ _ _, ?_, ?_⟩
    · intro e he t
      refine ⟨?_, ?_, ?_, ?_⟩ <;> rintro rfl <;> simp at he
    · intro h
      rw [h] at hts
      cases hts
    · intro t
      simp only [List.mem_cons, List.mem_append, List.mem_singleton]
      rw [mem_stackAll_filterMap l t]
      simp
  · have hts2 : l.toStderr = false := by
      cases h : l.toStderr
      · rfl
      · exact absurd h hts
    rw [outputj_fatal_eq_noStacks_files l a tm hfp hts2 hopen,
      outputj_fatal_eq_stacks_files l a tm hfp hts2 hopen]
    by_cases hw : (a || l.alsoToStderr || decide (l.stderrThreshold ≤ fatalLog)) = true
    · rw [if_pos hw]
      refine ⟨⟨rfl, getLast?_cons_append _ _ _, ?_⟩, rfl, ?_, fun _ => ?_, ?_⟩
      · intro e he t
        refine ⟨?_, ?_, ?_, ?_⟩ <;> rintro rfl <;> simp at he
      · simp only [List.cons_append]
        exact getLast?_cons_append _ _ _
      · simp
      · intro t
        simp only [List.cons_append, List.mem_cons, List.mem_append, List.mem_singleton]
        rw [mem_stackAll_filterMap l t]
        simp
    · rw [if_neg hw]
      refine ⟨⟨rfl, ?_, ?_⟩, rfl, ?_, fun _ => ?_, ?_⟩
      · simp only [List.nil_append]
        exact getLast?_concat2 _ _
      · intro e he t
        refine ⟨?_, ?_, ?_, ?_⟩ <;> rintro rfl <;> simp at he
      · simp only [List.nil_append]
        exact getLast?_concat2 _ _
      · simp
      · intro t
        simp only [List.nil_append, List.mem_cons, List.mem_append, List.mem_singleton]
        rw [mem_stackAll_filterMap l t]
        simp

theorem c6_fatal_exit_codes_witness :
    (outputj stFatalEx fatalLog false false true).2 = some (ExitKind.osExit 1) ∧
    (outputj stFatalEx fatalLog false false false).2 = some (ExitKind.osExit 255) ∧
    Ev.writeFile 0 Payload.stackAll ∈ (outputj stFatalEx fatalLog false false false).1 := by
  have h := c6_fatal_exit_codes_amended stFatalEx false false rfl rfl
  exact ⟨h.1.1, h.2.1, (h.2.2.2.2 0).mpr ⟨by decide, rfl⟩⟩

/-- C7: a record handed to the sink before `flag.Parse` is written to
standard error as the diagnostic prefix followed by the record bytes
(never dropped), and for every non-FATAL severity the sink performs no
exit on this path. -/
theorem c7_before_flag_parse_to_stderr (l : LogState) (s : Nat) (a tm fns : Bool)
    (hfp : l.flagParsed = false) :
    (outputj l s a tm fns).1.take 2 =
      [Ev.writeStderr Payload.beforeFlagParse,
       Ev.writeStderr (Payload.record (l.traceLocationSet && tm))] ∧
    (s ≠ fatalLog → (outputj l s a tm fns).2 = none) := by
  unfold outputj
  rw [outputjRoute_preParse l s a _ hfp]
  simp only []
  constructor
  · by_cases hsf : s = fatalLog
    · subst hsf
      cases fns <;> simp
    · rw [if_neg hsf]
      rfl
  · intro hsf
    rw [if_neg hsf]

theorem c7_before_flag_parse_to_stderr_witness :
    (outputj stPreEx 1 false false false).1.take 2 =
      [Ev.writeStderr Payload.beforeFlagParse, Ev.writeStderr (Payload.record false)] ∧
    (outputj stPreEx 1 false false false).2 = none := by
  have h := c7_before_flag_parse_to_stderr stPreEx 1 false false false rfl
  exact ⟨h.1, h.2 (by decide)⟩

/-- C8: when the file for the record's tier is not open and creating it
fails, the record bytes are mirrored to standard error and the sink
escalates through its exit path (`l.exit`). -/
theorem c8_create_failure_mirrors_and_exits (l : LogState) (s : Nat) (a tm fns : Bool)
    (hfp : l.flagParsed = true) (hts : l.toStderr = false)
    (hno : l.fileOpen s = false) (hcf : l.createFilesOk = false) :
    Ev.writeStderr (Payload.record (l.traceLocationSet && tm)) ∈ (outputj l s a tm fns).1 ∧
    (outputj l s a tm fns).2 = some ExitKind.sinkExit := by
  unfold outputj
  rw [outputjRoute_createFail l s a _ hfp hts hno hcf]
  simp only []
  exact ⟨by simp, by simp⟩

theorem c8_create_failure_mirrors_and_exits_witness :
    Ev.writeStderr (Payload.record false) ∈ (outputj stFailEx 1 false false false).1 ∧
    (outputj stFailEx 1 false false false).2 = some ExitKind.sinkExit := by
  have h := c8_create_failure_mirrors_and_exits stFailEx 1 false false false rfl rfl rfl rfl
  exact ⟨h.1, h.2⟩
